import Mathlib

/-!
Verification of the JIT code-generation and execution engine of the
self-modifying-memory experiments: the hand-assembled x86-64 byte buffers,
their branch-displacement patching, the mmap-backed executable region, and
the behaviour of the committed routines when invoked and overwritten.

The machine-code routines are given semantics by a small step interpreter
for exactly the x86-64 instruction subset the experiments emit
(32-bit register moves, arithmetic, compares, short conditional jumps and
near return), operating on the byte buffers the Python scripts build.
-/

/-- 2^32, the wrap-around modulus of the 32-bit register operations. -/
def M32 : Nat := 4294967296

/-- Reinterpret a 32-bit unsigned register value as a signed c_int,
the reinterpretation ctypes performs on the integer-return register. -/
def toSigned32 (w : Nat) : Int :=
  if w < 2147483648 then (w : Int) else (w : Int) - 4294967296

/-- Reinterpret a byte as a signed 8-bit displacement (two's complement). -/
def toSigned8 (b : Nat) : Int :=
  if b < 128 then (b : Int) else (b : Int) - 256

/-- Sign-extend an 8-bit immediate to 32 bits (x86 imm8 extension). -/
def sext8 (b : Nat) : Nat :=
  if b < 128 then b else b + 4294967040

/-- The visible machine state: the integer registers the emitted code uses,
the three status flags consumed by jle, and the instruction pointer as an
offset into the code buffer. The carry flag is never consumed by any
instruction the experiments emit, so it is not modelled. -/
structure Machine where
  eax : Nat := 0
  ecx : Nat := 0
  edx : Nat := 0
  ebx : Nat := 0
  esp : Nat := 0
  ebp : Nat := 0
  esi : Nat := 0
  edi : Nat := 0
  zf : Bool := false
  sf : Bool := false
  ofl : Bool := false
  ip : Nat := 0
  deriving DecidableEq, Repr

/-- Register lookup by x86 register number (eax=0, ecx=1, edx=2, ebx=3,
esp=4, ebp=5, esi=6, edi=7). -/
def getReg (m : Machine) (r : Nat) : Nat :=
  match r with
  | 0 => m.eax
  | 1 => m.ecx
  | 2 => m.edx
  | 3 => m.ebx
  | 4 => m.esp
  | 5 => m.ebp
  | 6 => m.esi
  | _ => m.edi

/-- Register update by x86 register number. -/
def setReg (m : Machine) (r : Nat) (v : Nat) : Machine :=
  match r with
  | 0 => { m with eax := v }
  | 1 => { m with ecx := v }
  | 2 => { m with edx := v }
  | 3 => { m with ebx := v }
  | 4 => { m with esp := v }
  | 5 => { m with ebp := v }
  | 6 => { m with esi := v }
  | _ => { m with edi := v }

/-- Execution of a compare a - b (as performed by cmp): zero flag from the
wrapped result, sign flag from its top bit, overflow flag from signed
overflow of the exact difference; registers unchanged, instruction pointer
moved past the instruction. -/
def cmpStep (m : Machine) (a b ip2 : Nat) : Machine :=
  { m with
    zf := decide ((a + 4294967296 - b) % 4294967296 = 0)
    sf := decide (2147483648 ≤ (a + 4294967296 - b) % 4294967296)
    ofl := decide (toSigned32 a - toSigned32 b < -2147483648 ∨
      2147483648 ≤ toSigned32 a - toSigned32 b)
    ip := ip2 }

/-- Flag update of an addition a + b: zero, sign and signed-overflow flags. -/
def addFlags (m : Machine) (a b : Nat) : Machine :=
  let r := (a + b) % 4294967296
  let d := toSigned32 a + toSigned32 b
  { m with
    zf := decide (r = 0)
    sf := decide (2147483648 ≤ r)
    ofl := decide (d < -2147483648 ∨ 2147483648 ≤ d) }

/-- The jle branch target: the offset just past the 2-byte instruction plus
the sign-extended displacement when ZF or SF differs from OF, the
fall-through offset otherwise. -/
def jleTarget (m : Machine) (disp : Nat) : Nat :=
  if m.zf || (m.sf != m.ofl) then ((m.ip : Int) + 2 + toSigned8 disp).toNat
  else m.ip + 2

/-- Fetch a 32-bit little-endian immediate at byte offset p. -/
def read32 (code : List Nat) (p : Nat) : Option Nat :=
  match code.get? p, code.get? (p + 1), code.get? (p + 2), code.get? (p + 3) with
  | some b0, some b1, some b2, some b3 =>
    some (b0 + 256 * b1 + 65536 * b2 + 16777216 * b3)
  | _, _, _, _ => none

/-- One instruction step of the x86-64 subset the experiments emit.
Returns the successor state, the returned eax value on ret, or none on a
byte sequence outside the modelled subset. Register-to-register forms
require a mod=11 ModRM byte, exactly as the emitted encodings have. -/
def step (code : List Nat) (m : Machine) : Option (Machine ⊕ Nat) :=
  match code.get? m.ip with
  | some 0x83 =>
    -- 83 /7 ib : cmp r/m32, imm8
    match code.get? (m.ip + 1), code.get? (m.ip + 2) with
    | some modrm, some imm =>
      if modrm / 64 = 3 ∧ modrm / 8 % 8 = 7 then
        some (Sum.inl (cmpStep m (getReg m (modrm % 8)) (sext8 imm) (m.ip + 3)))
      else none
    | _, _ => none
  | some 0x7e =>
    -- 7E cb : jle rel8
    match code.get? (m.ip + 1) with
    | some disp => some (Sum.inl { m with ip := jleTarget m disp })
    | none => none
  | some 0x31 =>
    -- 31 /r : xor r/m32, r32
    match code.get? (m.ip + 1) with
    | some modrm =>
      if modrm / 64 = 3 then
        let v := Nat.xor (getReg m (modrm % 8)) (getReg m (modrm / 8 % 8))
        some (Sum.inl { setReg
          { m with zf := decide (v = 0), sf := decide (2147483648 ≤ v), ofl := false }
          (modrm % 8) v with ip := m.ip + 2 })
      else none
    | none => none
  | some 0x01 =>
    -- 01 /r : add r/m32, r32
    match code.get? (m.ip + 1) with
    | some modrm =>
      if modrm / 64 = 3 then
        let x := getReg m (modrm % 8)
        let y := getReg m (modrm / 8 % 8)
        some (Sum.inl { setReg (addFlags m x y) (modrm % 8) ((x + y) % 4294967296) with
          ip := m.ip + 2 })
      else none
    | none => none
  | some 0x39 =>
    -- 39 /r : cmp r/m32, r32
    match code.get? (m.ip + 1) with
    | some modrm =>
      if modrm / 64 = 3 then
        some (Sum.inl (cmpStep m (getReg m (modrm % 8)) (getReg m (modrm / 8 % 8)) (m.ip + 2)))
      else none
    | none => none
  | some 0x89 =>
    -- 89 /r : mov r/m32, r32
    match code.get? (m.ip + 1) with
    | some modrm =>
      if modrm / 64 = 3 then
        some (Sum.inl { setReg m (modrm % 8) (getReg m (modrm / 8 % 8)) with ip := m.ip + 2 })
      else none
    | none => none
  | some 0xff =>
    -- FF /0 : inc r/m32 (leaves CF, which is not modelled)
    match code.get? (m.ip + 1) with
    | some modrm =>
      if modrm / 64 = 3 ∧ modrm / 8 % 8 = 0 then
        let x := getReg m (modrm % 8)
        let v := (x + 1) % 4294967296
        some (Sum.inl { setReg
          { m with zf := decide (v = 0), sf := decide (2147483648 ≤ v),
                   ofl := decide (x = 2147483647) }
          (modrm % 8) v with ip := m.ip + 2 })
      else none
    | none => none
  | some 0xb8 =>
    -- B8 id : mov eax, imm32
    match read32 code (m.ip + 1) with
    | some v => some (Sum.inl { setReg m 0 v with ip := m.ip + 5 })
    | none => none
  | some 0xb9 =>
    -- B9 id : mov ecx, imm32
    match read32 code (m.ip + 1) with
    | some v => some (Sum.inl { setReg m 1 v with ip := m.ip + 5 })
    | none => none
  | some 0xba =>
    -- BA id : mov edx, imm32
    match read32 code (m.ip + 1) with
    | some v => some (Sum.inl { setReg m 2 v with ip := m.ip + 5 })
    | none => none
  | some 0x0f =>
    -- 0F AF /r : imul r32, r/m32 (ZF and SF are undefined after imul on
    -- x86; they are modelled as preserved, and nothing emitted reads them)
    match code.get? (m.ip + 1), code.get? (m.ip + 2) with
    | some 0xaf, some modrm =>
      if modrm / 64 = 3 then
        let x := getReg m (modrm / 8 % 8)
        let y := getReg m (modrm % 8)
        let d := toSigned32 x * toSigned32 y
        some (Sum.inl { setReg
          { m with ofl := decide (d < -2147483648 ∨ 2147483648 ≤ d) }
          (modrm / 8 % 8) ((x * y) % 4294967296) with ip := m.ip + 3 })
      else none
    | _, _ => none
  | some 0xc3 =>
    -- C3 : ret, yielding the value in the integer-return register
    some (Sum.inr m.eax)
  | _ => none

/-- Fuel-bounded execution of a code buffer from a machine state, yielding
the eax value at ret. -/
def run (fuel : Nat) (code : List Nat) (m : Machine) : Option Nat :=
  match fuel with
  | 0 => none
  | fuel' + 1 =>
    match step code m with
    | some (Sum.inl m2) => run fuel' code m2
    | some (Sum.inr v) => some v
    | none => none

theorem run_succ (fuel : Nat) (code : List Nat) (m : Machine) :
    run (fuel + 1) code m =
      match step code m with
      | some (Sum.inl m2) => run fuel code m2
      | some (Sum.inr v) => some v
      | none => none := rfl

/-- The Python bitmask d & 0xff applied when a displacement byte is patched
into the buffer (Python & on an arbitrary int yields the value modulo 256). -/
def maskByte (d : Int) : Nat := (d % 256).toNat

/-! ### jit_fibonacci.py: the hand-assembled iterative Fibonacci routine -/

/-- cmp edi, 1 followed by the jle placeholder byte. -/
def fib_stage1 : List Nat := [0x83, 0xff, 0x01] ++ [0x7e, 0x00]

/-- Index of the jle placeholder displacement byte. -/
def jle_patch_pos : Nat := fib_stage1.length - 1

/-- xor eax, eax ; mov edx, 1 ; mov ecx, 2. -/
def fib_stage2 : List Nat :=
  fib_stage1 ++ [0x31, 0xc0] ++ [0xba, 0x01, 0x00, 0x00, 0x00] ++ [0xb9, 0x02, 0x00, 0x00, 0x00]

/-- Offset of the loop head. -/
def loop_start : Nat := fib_stage2.length

/-- The loop body: mov esi, edx ; add esi, eax ; mov eax, edx ;
mov edx, esi ; inc ecx ; cmp ecx, edi. -/
def fib_stage3 : List Nat :=
  fib_stage2 ++ [0x89, 0xd6] ++ [0x01, 0xc6] ++ [0x89, 0xd0] ++ [0x89, 0xf2] ++
    [0xff, 0xc1] ++ [0x39, 0xf9]

/-- Offset of the backward jle, the loop end. -/
def loop_end : Nat := fib_stage3.length

/-- Backward displacement to the loop head, relative to the offset just past
the 2-byte jle instruction. -/
def offset_to_loop : Int := (loop_start : Int) - ((loop_end : Int) + 2)

/-- jle loop_start ; mov eax, edx ; ret. -/
def fib_stage4 : List Nat :=
  fib_stage3 ++ [0x7e, maskByte offset_to_loop] ++ [0x89, 0xd0] ++ [0xc3]

/-- Offset of the n ≤ 1 return path. -/
def return_n_pos : Nat := fib_stage4.length

/-- mov eax, edi ; ret (the return-n path). -/
def fib_stage5 : List Nat := fib_stage4 ++ [0x89, 0xf8] ++ [0xc3]

/-- Forward displacement of the entry jle, relative to the offset just past
that 2-byte instruction (placeholder byte index + 1). -/
def jle_target_offset : Int := (return_n_pos : Int) - ((jle_patch_pos : Int) + 1)

/-- The finished Fibonacci machine code: the staged bytes with the entry jle
placeholder patched to the resolved forward displacement. -/
def fibonacci_code : List Nat := fib_stage5.set jle_patch_pos (maskByte jle_target_offset)

/-- The committed routine invoked through the ctypes handle of signature
int(int): the argument is marshalled into edi as its 32-bit two's
complement and the value left in eax is read back as a signed c_int. -/
def fib_jit (n : Int) : Option Int :=
  (run 200 fibonacci_code { edi := (n % 4294967296).toNat }).map toSigned32

/-- The iteration a, b = b, a + b of the reference Python loop. -/
def fibLoop : Nat → Int × Int → Int × Int
  | 0, p => p
  | k + 1, p => fibLoop k (p.2, p.1 + p.2)

/-- The trusted Python reference: n itself for n ≤ 1, otherwise the second
component after the iterations of the loop over range(2, n + 1). -/
def fib_python (n : Int) : Int :=
  if n ≤ 1 then n else (fibLoop ((n - 1).toNat) (0, 1)).2

example : fibonacci_code =
    [0x83, 0xff, 0x01, 0x7e, 29, 0x31, 0xc0, 0xba, 1, 0, 0, 0, 0xb9, 2, 0, 0, 0,
     0x89, 0xd6, 0x01, 0xc6, 0x89, 0xd0, 0x89, 0xf2, 0xff, 0xc1, 0x39, 0xf9,
     0x7e, 242, 0x89, 0xd0, 0xc3, 0x89, 0xf8, 0xc3] := by decide

example : fib_jit 10 = some 55 := by decide

example : fib_jit 0 = some 0 := by decide

example : fib_python 10 = 55 := by decide

/-! ### Claim C1: the committed Fibonacci routine matches the reference -/

/-- C1: for every n in 0..20, the committed iterative Fibonacci routine,
invoked with n in the first integer-argument register, returns the same
value as the trusted reference Fibonacci function; in particular for
n = 0..10 it returns 0, 1, 1, 2, 3, 5, 8, 13, 21, 34, 55. -/
theorem fib_jit_matches_fib_python :
    (∀ n : Nat, n ≤ 20 → fib_jit n = some (fib_python n)) ∧
      (List.range 11).map (fun n => fib_jit n) =
        [some 0, some 1, some 1, some 2, some 3, some 5, some 8, some 13, some 21,
         some 34, some 55] := by decide

/-- Witness for C1: concrete instantiation at n = 7. -/
theorem fib_jit_matches_fib_python_witness : fib_jit 7 = some (fib_python 7) :=
  fib_jit_matches_fib_python.1 7 (by decide)

/-! ### Claim C5: the displacement formula and its encoding -/

/-- C5: both patched displacements are computed as label offset minus the
offset immediately after the full 2-byte branch instruction; the backward
displacement to the loop head is negative, the forward displacement to the
return-n path is positive, and the two's-complement encoding of each is the
byte actually sitting in the placeholder position of the committed buffer. -/
theorem displacement_formula_and_encoding :
    offset_to_loop = (loop_start : Int) - ((loop_end : Int) + 2) ∧
      jle_target_offset = (return_n_pos : Int) - ((jle_patch_pos : Int) + 1) ∧
      offset_to_loop < 0 ∧
      0 < jle_target_offset ∧
      fibonacci_code.get? (loop_end + 1) = some (maskByte offset_to_loop) ∧
      fibonacci_code.get? jle_patch_pos = some (maskByte jle_target_offset) ∧
      toSigned8 (maskByte offset_to_loop) = offset_to_loop ∧
      toSigned8 (maskByte jle_target_offset) = jle_target_offset := by decide

/-! ### Claim C9: both displacements fit signed 8 bits, so the mask is exact -/

/-- C9: the two displacements computed while building the Fibonacci routine,
the backward loop displacement and the forward jle displacement, both lie
within -128..127, and masking each with 0xff therefore produces a byte whose
signed 8-bit reading is exactly the original displacement. -/
theorem fib_displacements_in_signed8_range :
    (-128 ≤ offset_to_loop ∧ offset_to_loop ≤ 127) ∧
      (-128 ≤ jle_target_offset ∧ jle_target_offset ≤ 127) ∧
      toSigned8 (maskByte offset_to_loop) = offset_to_loop ∧
      toSigned8 (maskByte jle_target_offset) = jle_target_offset := by decide

/-! ### Claim C2: out-of-range displacements are not rejected but truncated -/

/-- C2 counterexample: the displacement 300 lies outside -128..127, yet the
patch computation used at both patch sites produces the byte 44 with no
error of any kind, and that byte reads back as the displacement 44, not
300: the displacement is silently truncated, there is no
DisplacementOutOfRange failure in the code. -/
theorem displacement_truncation_counterexample :
    ¬(-128 ≤ (300 : Int) ∧ (300 : Int) ≤ 127) ∧
      maskByte 300 = 44 ∧
      toSigned8 (maskByte 300) = 44 := by decide

/-- C2 amended: the displacement patch computation masks the displacement
with 0xff and yields the resulting byte unconditionally; there is no
DisplacementOutOfRange error, so an out-of-range displacement is silently
truncated modulo 256, and the written byte reads back (as a signed 8-bit
value) to the original displacement exactly when that displacement lies
within -128..127. -/
theorem displacement_mask_total_and_lossy :
    ∀ d : Int, maskByte d < 256 ∧
      (toSigned8 (maskByte d) = d ↔ -128 ≤ d ∧ d ≤ 127) := by
  intro d
  unfold maskByte toSigned8
  constructor
  · omega
  · split <;> omega

/-! ### Claim C4: what protections the allocation sites actually request -/

/-- mmap protection bit PROT_READ on the target platform. -/
def PROT_READ : Nat := 1

/-- mmap protection bit PROT_WRITE on the target platform. -/
def PROT_WRITE : Nat := 2

/-- mmap protection bit PROT_EXEC on the target platform. -/
def PROT_EXEC : Nat := 4

/-- mmap flag MAP_PRIVATE on the target platform. -/
def MAP_PRIVATE : Nat := 2

/-- mmap flag MAP_ANONYMOUS on the target platform. -/
def MAP_ANONYMOUS : Nat := 32

/-- The arguments of one mmap.mmap allocation call. -/
structure MmapCall where
  fd : Int
  length : Nat
  prot : Nat
  flags : Nat
  deriving DecidableEq

/-- The allocation of exec_mem in self_modify.py: mmap.mmap(-1, 4096,
prot=PROT_READ|PROT_WRITE|PROT_EXEC, flags=MAP_PRIVATE|MAP_ANONYMOUS). -/
def exec_mem_call : MmapCall :=
  ⟨-1, 4096, PROT_READ ||| PROT_WRITE ||| PROT_EXEC, MAP_PRIVATE ||| MAP_ANONYMOUS⟩

/-- The allocation of mem in jit_fibonacci.py: the same mmap.mmap call. -/
def fib_mem_call : MmapCall :=
  ⟨-1, 4096, PROT_READ ||| PROT_WRITE ||| PROT_EXEC, MAP_PRIVATE ||| MAP_ANONYMOUS⟩

/-- C4 counterexample: both allocation sites request PROT_EXEC in the very
mmap call that creates the region, so the region is executable (and
writable) from the start, contradicting the claim that a freshly allocated
region is writable but not executable. -/
theorem allocation_requests_exec_counterexample :
    exec_mem_call.prot &&& PROT_EXEC ≠ 0 ∧ fib_mem_call.prot &&& PROT_EXEC ≠ 0 := by decide

/-- C4 amended: each allocation site reserves an anonymous process-private
region (fd = -1, MAP_PRIVATE and MAP_ANONYMOUS set) that is readable,
writable and executable from the moment of allocation; the permissive
simultaneously-writable-and-executable protection is spelled out explicitly
in the prot argument of every allocation call, but there is no
non-executable default and no separate opt-in flag. -/
theorem allocation_is_private_anonymous_rwx :
    (exec_mem_call.fd = -1 ∧
      exec_mem_call.flags &&& MAP_PRIVATE ≠ 0 ∧
      exec_mem_call.flags &&& MAP_ANONYMOUS ≠ 0 ∧
      exec_mem_call.prot = PROT_READ ||| PROT_WRITE ||| PROT_EXEC ∧
      exec_mem_call.prot &&& PROT_WRITE ≠ 0 ∧
      exec_mem_call.prot &&& PROT_EXEC ≠ 0) ∧
    (fib_mem_call.fd = -1 ∧
      fib_mem_call.flags &&& MAP_PRIVATE ≠ 0 ∧
      fib_mem_call.flags &&& MAP_ANONYMOUS ≠ 0 ∧
      fib_mem_call.prot = PROT_READ ||| PROT_WRITE ||| PROT_EXEC ∧
      fib_mem_call.prot &&& PROT_WRITE ≠ 0 ∧
      fib_mem_call.prot &&& PROT_EXEC ≠ 0) := by decide

/-! ### The mmap-backed memory region

The region model follows the documented semantics of the Python mmap
objects the experiments allocate: a fixed-capacity zero-initialised byte
span; writing at a position succeeds by splicing the bytes in place when
they fit and raises ValueError (data out of range) without writing
anything when they do not; reading returns the bytes at the position. -/

/-- One anonymous private mapping: its current bytes (length = capacity). -/
structure MMap where
  buf : List Nat
  deriving DecidableEq

/-- A fresh zero-filled mapping of the given capacity. -/
def MMap.allocCap (c : Nat) : MMap := ⟨List.replicate c 0⟩

/-- The 4096-byte mapping the experiments allocate. -/
def MMap.alloc : MMap := MMap.allocCap 4096

/-- Overwrite the front of a byte span with the given bytes, none when the
bytes run past the end of the span. -/
def overwriteList : List Nat → List Nat → Option (List Nat)
  | [], buf => some buf
  | _ :: _, [] => none
  | b :: bs, _ :: cs => (overwriteList bs cs).map (b :: ·)

/-- Overwrite the bytes of a span starting at a position, none when they do
not fit inside the span. -/
def spliceAt : Nat → List Nat → List Nat → Option (List Nat)
  | 0, bs, buf => overwriteList bs buf
  | _ + 1, _, [] => none
  | pos + 1, bs, c :: cs => (spliceAt pos bs cs).map (c :: ·)

/-- mmap write at a position: splices the bytes in when they fit inside the
mapping, fails with ValueError (data out of range) otherwise. -/
def MMap.write (m : MMap) (pos : Nat) (bs : List Nat) : Except String MMap :=
  match spliceAt pos bs m.buf with
  | some buf2 => .ok ⟨buf2⟩
  | none => .error "data out of range"

/-- mmap read of len bytes at a position. -/
def MMap.read (m : MMap) (pos len : Nat) : List Nat := (m.buf.drop pos).take len

theorem overwriteList_eq (bs : List Nat) : ∀ buf : List Nat,
    overwriteList bs buf =
      if bs.length ≤ buf.length then some (bs ++ buf.drop bs.length) else none := by
  induction bs with
  | nil => intro buf; simp [overwriteList]
  | cons b bs ih =>
    intro buf
    cases buf with
    | nil => simp [overwriteList]
    | cons c cs =>
      rw [overwriteList, ih cs]
      split
      case isTrue h => rw [if_pos (by simpa using h)]; simp [Option.map]
      case isFalse h => rw [if_neg (by simpa using h)]; simp [Option.map]

theorem spliceAt_eq (pos : Nat) : ∀ bs buf : List Nat,
    spliceAt pos bs buf =
      if pos + bs.length ≤ buf.length then
        some (buf.take pos ++ (bs ++ buf.drop (pos + bs.length)))
      else none := by
  induction pos with
  | zero => intro bs buf; rw [spliceAt, overwriteList_eq]; simp
  | succ pos ih =>
    intro bs buf
    cases buf with
    | nil =>
      rw [spliceAt, if_neg (by simp only [List.length_nil]; omega)]
    | cons c cs =>
      rw [spliceAt, ih bs cs]
      have harr : pos + 1 + bs.length = pos + bs.length + 1 := by omega
      by_cases h : pos + bs.length ≤ cs.length
      · rw [if_pos h, if_pos (by simp only [List.length_cons]; omega), harr]
        simp [List.drop_succ_cons, List.take_succ_cons]
      · rw [if_neg h, if_neg (by simp only [List.length_cons]; omega)]
        rfl

/-- The write operation in closed form: the region becomes the prefix up to
the position, the written bytes, and the suffix past them, provided the
bytes fit. -/
theorem MMap.write_eq (m : MMap) (pos : Nat) (bs : List Nat) :
    m.write pos bs =
      if pos + bs.length ≤ m.buf.length then
        .ok ⟨m.buf.take pos ++ (bs ++ m.buf.drop (pos + bs.length))⟩
      else .error "data out of range" := by
  unfold MMap.write
  rw [spliceAt_eq]
  by_cases h : pos + bs.length ≤ m.buf.length
  · simp only [if_pos h]
  · simp only [if_neg h]

/-- Any successful write is observed exactly by a subsequent read of the
written span. -/
theorem MMap.read_write (m m2 : MMap) (pos : Nat) (bs : List Nat)
    (h : m.write pos bs = .ok m2) : m2.read pos bs.length = bs := by
  rw [MMap.write_eq] at h
  split at h
  case isTrue hle =>
    obtain rfl : MMap.mk (m.buf.take pos ++ (bs ++ m.buf.drop (pos + bs.length))) = m2 := by
      injection h
    unfold MMap.read
    have h2 : (m.buf.take pos).length = pos := by
      rw [List.length_take]
      omega
    rw [List.drop_left' h2, List.take_left]
  case isFalse hle => exact absurd h (by simp)

/-! ### Claim C6: commit followed by readback returns the buffer exactly -/

/-- C6: committing any resolved buffer into a fresh region of sufficient
capacity and then reading the region back byte for byte, before any
overwrite, yields exactly the bytes of the buffer. -/
theorem commit_readback_roundtrip :
    ∀ (c : Nat) (bs : List Nat), bs.length ≤ c →
      ((MMap.allocCap c).write 0 bs).map (fun m2 => m2.read 0 bs.length) =
        .ok bs := by
  intro c bs h
  have hw : (MMap.allocCap c).write 0 bs =
      .ok ⟨(MMap.allocCap c).buf.take 0 ++
            (bs ++ (MMap.allocCap c).buf.drop (0 + bs.length))⟩ := by
    rw [MMap.write_eq]
    rw [if_pos (by simp [MMap.allocCap]; omega)]
  rw [hw]
  simp only [Except.map]
  exact congrArg Except.ok (MMap.read_write _ _ _ _ hw)

/-- The code buffer committed and read back in validate_mmap.py:
mov eax, 0xDEADBEEF ; ret. -/
def validate_mmap_code : List Nat := [0xb8, 0xef, 0xbe, 0xad, 0xde, 0xc3]

/-- Witness for C6: the 6-byte validate_mmap.py buffer round-trips through
a fresh 4096-byte region. -/
theorem commit_readback_roundtrip_witness :
    ((MMap.allocCap 4096).write 0 validate_mmap_code).map
        (fun m2 => m2.read 0 validate_mmap_code.length) =
      .ok validate_mmap_code :=
  commit_readback_roundtrip 4096 validate_mmap_code (by decide)

/-! ### Claim C7: a buffer longer than the capacity is rejected -/

/-- C7: for every region capacity and every buffer longer than that
capacity, committing the buffer fails with the out-of-range bounds error
and no bytes are written past the region end (the write returns the error
and no mapping). -/
theorem commit_overlong_rejected :
    ∀ (c : Nat) (bs : List Nat), c < bs.length →
      (MMap.allocCap c).write 0 bs = .error "data out of range" := by
  intro c bs h
  rw [MMap.write_eq]
  rw [if_neg (by simp [MMap.allocCap]; omega)]

/-- Witness for C7: a 4097-byte buffer is rejected by a 4096-byte region. -/
theorem commit_overlong_rejected_witness :
    (MMap.allocCap 4096).write 0 (List.replicate 4097 0) = .error "data out of range" :=
  commit_overlong_rejected 4096 (List.replicate 4097 0)
    (by rw [List.length_replicate]; omega)

/-! ### Claim C3: patching the return immediate in place -/

/-- The initial routine of the self-modifying loop in self_modify.py:
mov eax, 0 ; ret, whose 32-bit immediate gets patched each iteration. -/
def base_code : List Nat := [0xb8, 0x00, 0x00, 0x00, 0x00, 0xc3]

/-- The machine state a fresh ctypes invocation starts from. -/
def initMachine : Machine := {}

/-- Calling the region through the CFUNCTYPE(c_int) handle: execute the
region bytes and reinterpret the returned register as a signed c_int. -/
def callInt (m : MMap) : Option Int := (run 20 m.buf initMachine).map toSigned32

/-- struct.pack of a 32-bit little-endian unsigned value. -/
def le32 (x : Nat) : List Nat := [x % 256, x / 256 % 256, x / 65536 % 256, x / 16777216 % 256]

/-- One iteration of the self-modifying loop: call the function, then
overwrite the immediate operand at offset 1 with (i + 1) * 100. -/
def part5_step (m : MMap) (i : Nat) : Except String (MMap × Option Int) :=
  let r := callInt m
  (m.write 1 (le32 ((i + 1) * 100))).map (fun m2 => (m2, r))

/-- The self-modifying loop over the iteration indices, collecting the
value returned by each call. -/
def part5_run : List Nat → MMap → Except String (List (Option Int) × MMap)
  | [], m => .ok ([], m)
  | i :: rest, m =>
    match part5_step m i with
    | .ok (m2, r) => (part5_run rest m2).map (fun p => (r :: p.1, p.2))
    | .error e => .error e

/-- PART 5 of self_modify.py: allocate, write the base routine, run the
ten call-then-patch iterations, and make one final call. -/
def part5_results : Except String (List (Option Int)) :=
  match MMap.alloc.write 0 base_code with
  | .ok m0 => (part5_run (List.range 10) m0).map (fun p => p.1 ++ [callInt p.2])
  | .error e => .error e

/-- C3: overwriting the return-immediate operand in place to 100, 200, ...,
1000 with one call through the same handle after each overwrite returns
exactly 100, 200, ..., 1000 in order (the initial call before any overwrite
returns 0); and in general a call after a successful overwrite observes
exactly the newly written bytes. -/
theorem self_modify_patch_sequence :
    part5_results = .ok [some 0, some 100, some 200, some 300, some 400, some 500,
        some 600, some 700, some 800, some 900, some 1000] ∧
      ∀ (m m2 : MMap) (pos : Nat) (bs : List Nat),
        m.write pos bs = .ok m2 → m2.read pos bs.length = bs := by
  constructor
  · rfl
  · exact fun m m2 pos bs h => MMap.read_write m m2 pos bs h

/-- Witness for C3: a concrete overwrite of the immediate span at offset 1
of the fresh region is observed by the read of that span. -/
theorem self_modify_patch_sequence_witness :
    MMap.read ⟨0 :: 9 :: 8 :: 7 :: 6 :: List.replicate 4091 0⟩ 1 4 = [9, 8, 7, 6] :=
  self_modify_patch_sequence.2 MMap.alloc _ 1 [9, 8, 7, 6] rfl

/-! ### Claim C8: arguments at most 1 are returned unchanged -/

/-- The machine state after the entry cmp edi, 1 of the Fibonacci routine,
for the 32-bit argument value w in edi. -/
def fibStateAfterCmp (w : Nat) : Machine := cmpStep { edi := w } w (sext8 1) 3

theorem run_step_lemma {code : List Nat} {m m2 : Machine}
    (h : step code m = some (Sum.inl m2)) (fuel : Nat) :
    run (fuel + 1) code m = run fuel code m2 := by
  rw [run_succ, h]

set_option maxRecDepth 2000 in
theorem fib_step_cmp (w : Nat) :
    step fibonacci_code { edi := w } = some (Sum.inl (fibStateAfterCmp w)) := rfl

set_option maxRecDepth 2000 in
theorem fib_step_jle (w : Nat) :
    step fibonacci_code (fibStateAfterCmp w) =
      some (Sum.inl { fibStateAfterCmp w with ip := jleTarget (fibStateAfterCmp w) 29 }) := rfl

set_option maxRecDepth 8000 in
theorem fib_ret_path (w : Nat) :
    run 198 fibonacci_code { fibStateAfterCmp w with ip := 34 } = some w := rfl

/-- The entry jle of the Fibonacci routine is taken, to the return-n path
at offset 34, exactly when the signed reading of the argument register is
at most 1. -/
theorem fib_jle_taken (w : Nat) (hw : w < 4294967296) (hle : toSigned32 w ≤ 1) :
    jleTarget (fibStateAfterCmp w) 29 = 34 := by
  dsimp only [fibStateAfterCmp, cmpStep, jleTarget]
  rw [show sext8 1 = 1 from rfl, show toSigned32 1 = 1 from rfl]
  have hc : (decide ((w + 4294967296 - 1) % 4294967296 = 0) ||
      decide (2147483648 ≤ (w + 4294967296 - 1) % 4294967296) !=
        decide (toSigned32 w - 1 < -2147483648 ∨ 2147483648 ≤ toSigned32 w - 1)) = true := by
    simp only [Bool.or_eq_true, bne_iff_ne, ne_eq, decide_eq_true_eq, decide_eq_decide]
    unfold toSigned32 at hle ⊢
    split_ifs at hle ⊢ <;> omega
  rw [hc]
  decide

/-- C8: for every representable integer argument n with n at most 1,
including every negative one, the committed Fibonacci routine takes the
cmp edi, 1 / jle path, moves the argument register into the return register
and returns n itself unchanged, and the Python reference function agrees on
this case. -/
theorem fib_jit_le_one :
    ∀ n : Int, -2147483648 ≤ n → n ≤ 1 → fib_jit n = some n ∧ fib_python n = n := by
  intro n h1 h2
  have hpy : fib_python n = n := by rw [fib_python, if_pos h2]
  refine ⟨?_, hpy⟩
  unfold fib_jit
  have hw0 : 0 ≤ n % 4294967296 := Int.emod_nonneg n (by norm_num)
  have hw1 : n % 4294967296 < 4294967296 := Int.emod_lt_of_pos n (by norm_num)
  set w := (n % 4294967296).toNat with hwdef
  have hwlt : w < 4294967296 := by omega
  have hsw : toSigned32 w = n := by
    unfold toSigned32
    split <;> omega
  rw [show (200 : Nat) = 199 + 1 from rfl, run_step_lemma (fib_step_cmp w) 199,
    show (199 : Nat) = 198 + 1 from rfl, run_step_lemma (fib_step_jle w) 198,
    fib_jle_taken w hwlt (by rw [hsw]; exact h2), fib_ret_path w]
  rw [Option.map_some', hsw]

/-- Witness for C8: concrete instantiation at the negative argument -5. -/
theorem fib_jit_le_one_witness : fib_jit (-5) = some (-5) ∧ fib_python (-5) = -5 :=
  fib_jit_le_one (-5) (by norm_num) (by norm_num)

/-! ### Claim C10: the add-mul JIT routine computes a + b * c wrapped to 32 bits -/

/-- jit_compile_add_mul of self_modify.py: mov eax, a ; mov ecx, b ;
mov edx, c ; imul ecx, edx ; add eax, ecx ; ret, with each immediate masked
with 0xFFFFFFFF (value modulo 2^32) and packed little-endian at emission. -/
def jit_compile_add_mul (a_val b_val c_val : Int) : List Nat :=
  [0xb8] ++ le32 ((a_val % 4294967296).toNat) ++
    [0xb9] ++ le32 ((b_val % 4294967296).toNat) ++
    [0xba] ++ le32 ((c_val % 4294967296).toNat) ++
    [0x0f, 0xaf, 0xca] ++ [0x01, 0xc8] ++ [0xc3]

/-- Compiling and invoking the add-mul routine through the CFUNCTYPE(c_int)
handle, as PART 6 of self_modify.py does for each test case. -/
def jit_add_mul_call (a b c : Int) : Option Int :=
  (run 10 (jit_compile_add_mul a b c) initMachine).map toSigned32

/-- The value the processor assembles from four little-endian immediate
bytes of the 32-bit value x. -/
def dec32 (x : Nat) : Nat :=
  x % 256 + 256 * (x / 256 % 256) + 65536 * (x / 65536 % 256) + 16777216 * (x / 16777216 % 256)

set_option maxRecDepth 8000 in
theorem jit_run_eval (a b c : Int) :
    run 10 (jit_compile_add_mul a b c) initMachine =
      some ((dec32 ((a % 4294967296).toNat) +
        dec32 ((b % 4294967296).toNat) * dec32 ((c % 4294967296).toNat) % 4294967296) %
          4294967296) := rfl

/-- C10: for all integers a, b, c, the machine-code routine generated by
jit_compile_add_mul returns a + b * c computed in 32-bit wrapping
arithmetic, reinterpreted as a signed 32-bit return value; in particular,
whenever a + b * c fits in a signed 32-bit integer with non-negative
a, b, c, the routine returns exactly a + b * c. -/
theorem jit_add_mul_correct :
    ∀ a b c : Int,
      jit_add_mul_call a b c = some (toSigned32 (((a + b * c) % 4294967296).toNat)) ∧
      (0 ≤ a → 0 ≤ b → 0 ≤ c → a + b * c < 2147483648 →
        jit_add_mul_call a b c = some (a + b * c)) := by
  intro a b c
  have ha0 : 0 ≤ a % 4294967296 := Int.emod_nonneg a (by norm_num)
  have ha1 : a % 4294967296 < 4294967296 := Int.emod_lt_of_pos a (by norm_num)
  have hb0 : 0 ≤ b % 4294967296 := Int.emod_nonneg b (by norm_num)
  have hb1 : b % 4294967296 < 4294967296 := Int.emod_lt_of_pos b (by norm_num)
  have hc0 : 0 ≤ c % 4294967296 := Int.emod_nonneg c (by norm_num)
  have hc1 : c % 4294967296 < 4294967296 := Int.emod_lt_of_pos c (by norm_num)
  have hA : dec32 ((a % 4294967296).toNat) = (a % 4294967296).toNat := by unfold dec32; omega
  have hB : dec32 ((b % 4294967296).toNat) = (b % 4294967296).toNat := by unfold dec32; omega
  have hC : dec32 ((c % 4294967296).toNat) = (c % 4294967296).toNat := by unfold dec32; omega
  have hbc0 : 0 ≤ (a + b * c) % 4294967296 := Int.emod_nonneg _ (by norm_num)
  have hmain : jit_add_mul_call a b c =
      some (toSigned32 (((a + b * c) % 4294967296).toNat)) := by
    unfold jit_add_mul_call
    rw [jit_run_eval, hA, hB, hC, Option.map_some']
    have key : ((((a % 4294967296).toNat +
        (b % 4294967296).toNat * (c % 4294967296).toNat % 4294967296) % 4294967296 : Nat) :
          Int) = (a + b * c) % 4294967296 := by
      push_cast
      rw [Int.toNat_of_nonneg ha0, Int.toNat_of_nonneg hb0, Int.toNat_of_nonneg hc0]
      rw [Int.add_emod a (b * c), Int.mul_emod b c]
    have hflat : ((a % 4294967296).toNat +
        (b % 4294967296).toNat * (c % 4294967296).toNat % 4294967296) % 4294967296 =
          ((a + b * c) % 4294967296).toNat := by omega
    rw [hflat]
  refine ⟨hmain, fun hpa hpb hpc hlt => ?_⟩
  rw [hmain]
  have hbc : 0 ≤ b * c := mul_nonneg hpb hpc
  have h1 : (a + b * c) % 4294967296 = a + b * c := Int.emod_eq_of_lt (by omega) (by omega)
  rw [h1]
  have hfit : toSigned32 ((a + b * c).toNat) = a + b * c := by
    unfold toSigned32
    split <;> omega
  rw [hfit]

/-- Witness for C10: concrete instantiation at 1 + 2 * 3 = 7. -/
theorem jit_add_mul_correct_witness : jit_add_mul_call 1 2 3 = some (1 + 2 * 3) :=
  (jit_add_mul_correct 1 2 3).2 (by norm_num) (by norm_num) (by norm_num) (by norm_num)
